import Mathlib

/-!
Verification of the quiz-session core of the HSK-Level-3-Quiz repository
(`src/App.tsx`).  The pure functions (`shuffleArray`, `generateOptions`,
`getQuestionText`, `getCorrectAnswer`) are embedded directly; the React
component state (`handleAnswer`, `nextQuestion`, `skipQuestion`,
`finishQuiz`, the stats-loading effect and the countdown timer) is embedded
as explicit state passing over a `Session` record, with `Math.random()`
draws modelled as explicit index sequences supplied as arguments.
JavaScript numbers that stay integral are modelled as `Nat`/`Int`; the one
floating-point artefact that matters (`0/0 = NaN` in the percentage
computation) is modelled by `Option Nat`, `none` standing for `NaN`.
-/

namespace HSKQuiz

/-- A vocabulary entry, from `data/vocabulary` (`VocabularyItem`):
Chinese text, English gloss, pinyin transcription. -/
structure VocabularyItem where
  chinese : String
  english : String
  pinyin : String
deriving DecidableEq

instance : Inhabited VocabularyItem := ⟨⟨"", "", ""⟩⟩

/-- The quiz modes of `type QuizMode` (App.tsx lines 26-32). -/
inductive QuizMode where
  | chineseToEnglish
  | englishToChinese
  | pinyinToChinese
  | chineseToPinyin
  | mixed
deriving DecidableEq

/-- `getQuestionText` (App.tsx lines 101-114). -/
def getQuestionText (item : VocabularyItem) (mode : QuizMode) : String :=
  match mode with
  | .chineseToEnglish => item.chinese
  | .englishToChinese => item.english
  | .pinyinToChinese => item.pinyin
  | .chineseToPinyin => item.chinese
  | .mixed => item.chinese

/-- `getCorrectAnswer` (App.tsx lines 116-129); the `default` switch case
(taken by `mixed`) yields `item.english`. -/
def getCorrectAnswer (item : VocabularyItem) (mode : QuizMode) : String :=
  match mode with
  | .chineseToEnglish => item.english
  | .englishToChinese => item.chinese
  | .pinyinToChinese => item.chinese
  | .chineseToPinyin => item.pinyin
  | .mixed => item.english

/-- The field-extraction switch inside `generateOptions` (App.tsx lines
54-70 and 76-92); both occurrences use the same mapping, which coincides
with `getCorrectAnswer`. -/
def extractAnswer (item : VocabularyItem) (mode : QuizMode) : String :=
  match mode with
  | .chineseToEnglish => item.english
  | .englishToChinese => item.chinese
  | .pinyinToChinese => item.chinese
  | .chineseToPinyin => item.pinyin
  | .mixed => item.english

/-- The destructuring swap `[a[i], a[j]] = [a[j], a[i]]` of App.tsx line 46,
on a list; out-of-range indices leave the list unchanged (they cannot occur
in the loop below). -/
def listSwap {α : Type _} (l : List α) (i j : Nat) : List α :=
  if hi : i < l.length then
    if hj : j < l.length then
      (l.set i (l.get ⟨j, hj⟩)).set j (l.get ⟨i, hi⟩)
    else l
  else l

/-- The Fisher-Yates loop of `shuffleArray` (App.tsx lines 44-47), running
`for (let i = n-1; i > 0; i--)`.  The random draw
`Math.floor(Math.random() * (i + 1))` is modelled by `R i % (i + 1)`,
where `R : Nat → Nat` is the explicit stream of random numbers. -/
def fyLoop {α : Type _} (R : Nat → Nat) : Nat → List α → List α
  | 0, l => l
  | i + 1, l => fyLoop R i (listSwap l (i + 1) (R (i + 1) % (i + 2)))

/-- `shuffleArray` (App.tsx lines 42-49): copies the input
(`[...array]`, inherent in the functional embedding) and permutes the
copy in place. -/
def shuffleArray {α : Type _} (l : List α) (R : Nat → Nat) : List α :=
  fyLoop R (l.length - 1) l

/-- The `while (options.size < 4)` loop of `generateOptions` (App.tsx lines
74-96) on the insertion-ordered set `options`, with the stream of random
draws `allItems[Math.floor(Math.random() * allItems.length)]` supplied as
the explicit list `draws`.  `none` means the draws were exhausted with the
set still smaller than 4 — i.e. the source loop would still be running. -/
def optionsLoop (c : String) (m : QuizMode) :
    List VocabularyItem → List String → Option (List String)
  | [], opts => if 4 ≤ opts.length then some opts else none
  | d :: ds, opts =>
    if 4 ≤ opts.length then some opts
    else
      if extractAnswer d m ≠ c ∧ extractAnswer d m ∉ opts then
        optionsLoop c m ds (opts ++ [extractAnswer d m])
      else optionsLoop c m ds opts

/-- `generateOptions` (App.tsx lines 51-99).  The random item draws are the
index stream `idxs` (each `Math.floor(Math.random() * allItems.length)`),
and the final `shuffleArray` call takes the random stream `R`.  The
insertion-ordered set becomes the accumulator list seeded with the correct
answer (line 72); `Array.from` is the identity on that list. -/
def generateOptions (correctItem : VocabularyItem) (allItems : List VocabularyItem)
    (mode : QuizMode) (idxs : List Nat) (R : Nat → Nat) : Option (List String) :=
  match optionsLoop (extractAnswer correctItem mode) mode
      (idxs.map fun k => allItems.getD k default) [extractAnswer correctItem mode] with
  | some os => some (shuffleArray os R)
  | none => none

/-- One element of the `answers` state array (`QuizResult['answers']`),
as appended in App.tsx lines 246-251 and 275-280. -/
structure AnswerRec where
  question : VocabularyItem
  userAnswer : String
  correct : Bool
  options : List String
deriving DecidableEq

/-- The per-session React state of `App` (App.tsx lines 141-153) that the
quiz handlers read and write; `finished` stands for `appState` having left
`'quiz'` for `'result'` (set only by `finishQuiz`, line 327). -/
structure Session where
  questions : List VocabularyItem
  currentIndex : Nat
  options : List String
  selectedAnswer : Option String
  isAnswered : Bool
  score : Nat
  streak : Nat
  bestStreak : Nat
  answers : List AnswerRec
  finished : Bool
deriving DecidableEq

/-- The `useState` initial values (App.tsx lines 141-153). -/
def initialSession : Session :=
  { questions := [], currentIndex := 0, options := [], selectedAnswer := none,
    isAnswered := false, score := 0, streak := 0, bestStreak := 0,
    answers := [], finished := false }

/-- `startQuiz` (App.tsx lines 203-222): resets index, score, streak, best
streak and answers, installs the sampled questions and the first option
set.  Faithfully, it does NOT reset `selectedAnswer` or `isAnswered`. -/
def startQuiz (s : Session) (selected : List VocabularyItem)
    (opts : List String) : Session :=
  { s with
    questions := selected, currentIndex := 0, score := 0, streak := 0,
    bestStreak := 0, answers := [], options := opts, finished := false }

/-- `handleAnswer` (App.tsx lines 224-252), with the effective mode (the
`mixed` resolution of lines 228-230) passed in explicitly. -/
def handleAnswer (s : Session) (answer : String) (effMode : QuizMode) : Session :=
  if s.isAnswered then s
  else
    let currentQuestion := s.questions.getD s.currentIndex default
    let correct := answer == getCorrectAnswer currentQuestion effMode
    let s1 : Session :=
      if correct then
        { s with
          selectedAnswer := some answer, isAnswered := true,
          score := s.score + 1, streak := s.streak + 1,
          bestStreak := if s.streak + 1 > s.bestStreak then s.streak + 1
            else s.bestStreak }
      else
        { s with selectedAnswer := some answer, isAnswered := true, streak := 0 }
    { s1 with answers := s.answers ++ [⟨currentQuestion, answer, correct, s.options⟩] }

/-- `finishQuiz`'s effect on the session state: only the screen transition
`setAppState('result')` (App.tsx line 327); the result construction and
stats update (lines 285-317) are modelled by `buildResult`/`updateStats`
below. -/
def finishSession (s : Session) : Session :=
  { s with finished := true }

/-- `nextQuestion` (App.tsx lines 254-270), with the freshly generated
option set for the next question passed in as `newOpts`. -/
def nextQuestion (s : Session) (newOpts : List String) : Session :=
  if s.currentIndex < s.questions.length - 1 then
    { s with
      currentIndex := s.currentIndex + 1, selectedAnswer := none,
      isAnswered := false, options := newOpts }
  else
    finishSession s

/-- `skipQuestion` (App.tsx lines 272-283): appends the `'Skipped'`
sentinel record, zeroes the streak, then advances. -/
def skipQuestion (s : Session) (newOpts : List String) : Session :=
  nextQuestion
    { s with
      answers := s.answers ++
        [⟨s.questions.getD s.currentIndex default, "Skipped", false, s.options⟩],
      streak := 0 }
    newOpts

/-- The user/timer events that can reach the session handlers while the
quiz screen is shown. -/
inductive Event where
  | answer (a : String) (m : QuizMode)
  | advance (newOpts : List String)
  | skip (newOpts : List String)
  | timeUp

/-- One UI event.  The guards mirror what the rendered screen allows: all
handlers are reachable only while `appState === 'quiz'` (line 911), the
Next button only when `isAnswered` (line 1082), the Skip button only when
`!isAnswered` (line 1098); the timer fires `finishQuiz` (lines 188-201). -/
def step (s : Session) (e : Event) : Session :=
  if s.finished then s
  else
    match e with
    | .answer a m => handleAnswer s a m
    | .advance newOpts => if s.isAnswered then nextQuestion s newOpts else s
    | .skip newOpts => if s.isAnswered then s else skipQuestion s newOpts
    | .timeUp => finishSession s

/-- A whole interaction run. -/
def runTrace (s : Session) (es : List Event) : Session :=
  es.foldl step s

/-- The session invariant that actually holds on the code: the index stays
within bounds, the score never exceeds the number of correct records, and
the answer count is `currentIndex` plus one for an answered-but-not-yet-
advanced current question — with two deviations the source forces.
`startQuiz` does not reset `isAnswered`, so a session started right after
one that ended with its last question answered begins with
`isAnswered = true` and `answers = []` and runs one short thereafter (the
`+ 1` disjunct); and finishing by skipping the last question leaves
`answers.length = currentIndex + 1` with `isAnswered = false` (the skip
appends but `nextQuestion` finishes without incrementing the index). -/
def SessionInv (s : Session) : Prop :=
  s.currentIndex ≤ s.questions.length ∧
  s.score ≤ (s.answers.filter (·.correct)).length ∧
  (s.finished = false →
    (s.answers.length = s.currentIndex + (if s.isAnswered then 1 else 0) ∨
      s.answers.length + 1 = s.currentIndex + (if s.isAnswered then 1 else 0))) ∧
  (s.finished = true →
    (s.answers.length = s.currentIndex + (if s.isAnswered then 1 else 0) ∨
      s.answers.length + 1 = s.currentIndex + (if s.isAnswered then 1 else 0) ∨
      s.answers.length = s.currentIndex + 1))

/-- The streak values observed after each event of a run (the values the
`streak` state variable takes; the pre-run value is 0 after `startQuiz`). -/
def streaksAfter (s : Session) : List Event → List Nat
  | [] => []
  | e :: es => (step s e).streak :: streaksAfter (step s e) es

/-- The HSK levels of `vocabularyByLevel` (levels 1, 3 and 4,
App.tsx lines 36-40 and 160-164). -/
inductive HSKLevel where
  | one
  | three
  | four
deriving DecidableEq

/-- `QuizResult` (from `data/vocabulary`), as built by `finishQuiz`. -/
structure QuizResult where
  level : HSKLevel
  correct : Nat
  incorrect : Nat
  skipped : Nat
  timeTaken : Nat
  answers : List AnswerRec
deriving DecidableEq

/-- The result construction of `finishQuiz` (App.tsx lines 286-297):
`correct` counts the correct records, `incorrect` is
`answers.length - correct`, `skipped` counts the `'Skipped'` sentinel. -/
def buildResult (level : HSKLevel) (timeTaken : Nat)
    (answers : List AnswerRec) : QuizResult :=
  { level := level
    correct := (answers.filter (·.correct)).length
    incorrect := answers.length - (answers.filter (·.correct)).length
    skipped := (answers.filter (fun a => a.userAnswer == "Skipped")).length
    timeTaken := timeTaken
    answers := answers }

/-- Bit length of a natural number (position of its highest set bit plus
one), by fueled structural recursion; the fuel `n` always suffices since a
positive `n` reaches 0 after at most `n` halvings. -/
def bitLenAux : Nat → Nat → Nat
  | 0, _ => 0
  | fuel + 1, n => if n = 0 then 0 else bitLenAux fuel (n / 2) + 1

def bitLen (n : Nat) : Nat := bitLenAux n n

/-- `a / b` rounded to the nearest integer, ties to even — the IEEE-754
round-to-nearest-even step used by binary64 division and multiplication. -/
def roundDivEven (a b : Nat) : Nat :=
  let q := a / b
  let r := a % b
  if 2 * r < b then q
  else if b < 2 * r then q + 1
  else if q % 2 = 0 then q else q + 1

/-- The binary64 (JavaScript number) value of `a / b` for positive `a`,
`b`, as a pair `(M, E)` meaning `M * 2 ^ E` with `2 ^ 52 ≤ M < 2 ^ 53`:
the exact quotient rounded to 53 significand bits, nearest-even.  Valid in
the normal exponent range, which covers every quiz-reachable magnitude. -/
def flDiv (a b : Nat) : Nat × Int :=
  let d : Int := (bitLen a : Int) - (bitLen b : Int)
  let f : Int :=
    if 0 ≤ d then (if b * 2 ^ d.toNat ≤ a then d else d - 1)
    else (if b ≤ a * 2 ^ (-d).toNat then d else d - 1)
  let t : Int := 52 - f
  let m0 := if 0 ≤ t then roundDivEven (a * 2 ^ t.toNat) b
    else roundDivEven a (b * 2 ^ (-t).toNat)
  if m0 = 2 ^ 53 then (2 ^ 52, f - 51) else (m0, f - 52)

/-- Binary64 multiplication of `M * 2 ^ E` by the exact constant 100: the
exact product rounded back to 53 significand bits, nearest-even. -/
def flMul100 (M : Nat) (E : Int) : Nat × Int :=
  let c := M * 100
  let L := bitLen c
  if L ≤ 53 then (c, E)
  else
    let s := L - 53
    let m0 := roundDivEven c (2 ^ s)
    if m0 = 2 ^ 53 then (2 ^ 52, E + s + 1) else (m0, E + (s : Int))

/-- `Math.round` on the non-negative double `M * 2 ^ E`: the nearest
integer to its exact value, ties toward positive infinity. -/
def roundHalfUp (M : Nat) (E : Int) : Nat :=
  if 0 ≤ E then M * 2 ^ E.toNat
  else
    let t := (-E).toNat
    (M + 2 ^ (t - 1)) / 2 ^ t

/-- `Math.round((correct / total) * 100)` (App.tsx lines 314 and 1119),
computed as JavaScript does: binary64 division, binary64 multiplication by
100, then `Math.round`.  `total = 0` gives `0 / 0 = NaN`, modelled as
`none`.  The float rounding matters: `23 / 40 * 100` is the double
`57.49999999999999…`, so the result is 57 where exact rational rounding
would give 58. -/
def jsRoundPct (correct total : Nat) : Option Nat :=
  if total = 0 then none
  else if correct = 0 then some 0
  else
    let x := flDiv correct total
    let y := flMul100 x.1 x.2
    some (roundHalfUp y.1 y.2)

/-- The specification's percentage, following its words
`round(100 * result.correct / result.answers.length)` literally: exact
rational rounding, ties up.  Stated only for comparison with `jsRoundPct`,
the program's floating-point computation. -/
def specRoundPct (correct total : Nat) : Nat :=
  (200 * correct + total) / (2 * total)

/-- One per-level statistics record (App.tsx lines 160-164). -/
structure LevelStat where
  quizzes : Nat
  correct : Nat
  total : Nat
deriving DecidableEq

/-- The aggregate statistics state (App.tsx lines 156-164). -/
structure Stats where
  totalQuizzes : Nat
  totalCorrect : Nat
  totalQuestions : Nat
  bestScore : Nat
  levelStats : HSKLevel → LevelStat

/-- The `useState` initial statistics: all counters zero. -/
def initialStats : Stats :=
  { totalQuizzes := 0, totalCorrect := 0, totalQuestions := 0, bestScore := 0,
    levelStats := fun _ => ⟨0, 0, 0⟩ }

/-- The statistics update of `finishQuiz` (App.tsx lines 300-317).  With
zero answers the percentage is `NaN` and `NaN > bestScore` is false, so
`bestScore` is unchanged — the `none` branch. -/
def updateStats (st : Stats) (level : HSKLevel) (correct numAnswers : Nat) : Stats :=
  let st' : Stats :=
    { totalQuizzes := st.totalQuizzes + 1
      totalCorrect := st.totalCorrect + correct
      totalQuestions := st.totalQuestions + numAnswers
      bestScore := st.bestScore
      levelStats := fun l =>
        if l = level then
          ⟨(st.levelStats level).quizzes + 1, (st.levelStats level).correct + correct,
            (st.levelStats level).total + numAnswers⟩
        else st.levelStats l }
  match jsRoundPct correct numAnswers with
  | some p => if p > st.bestScore then { st' with bestScore := p } else st'
  | none => st'

/-- A sequence of finished sessions folded through the stats update; each
triple is `(level, result.correct, result.answers.length)`. -/
def recordAll (st : Stats) (rs : List (HSKLevel × Nat × Nat)) : Stats :=
  rs.foldl (fun s r => updateStats s r.1 r.2.1 r.2.2) st

/-- The possible outcomes of `JSON.parse` on the string stored under
`'hsk-quiz-stats'`: a parsed value whose fields the loader reads (each
possibly absent or falsy, abstracted as `Option`), or a parse failure —
`JSON.parse` throws a `SyntaxError` on malformed content. -/
inductive ParsedStats where
  | obj (totalQuizzes totalCorrect totalQuestions bestScore : Option Nat)
      (levelStats : Option (HSKLevel → LevelStat))
  | malformed

/-- The stats-loading effect (App.tsx lines 166-176): an absent (or empty,
hence falsy) stored value keeps the in-memory state; otherwise the value is
fed to `JSON.parse`, whose failure on malformed content is not caught — no
try/catch — and propagates as a thrown exception (`Except.error`); parsed
fields fall back to 0 and the zeroed per-level record via `||`. -/
def loadStats (saved : Option ParsedStats) (current : Stats) : Except Unit Stats :=
  match saved with
  | none => .ok current
  | some .malformed => .error ()
  | some (.obj tq tc tqs best lvl) => .ok
      { totalQuizzes := tq.getD 0, totalCorrect := tc.getD 0,
        totalQuestions := tqs.getD 0, bestScore := best.getD 0,
        levelStats := lvl.getD (fun _ => ⟨0, 0, 0⟩) }

/-- One countdown tick: the `setTimeLeft` updater of the timer effect
(App.tsx lines 191-197).  The `Bool` records whether `finishQuiz()` was
invoked on this tick. -/
def timerTick : Option Int → Option Int × Bool
  | none => (some 0, true)
  | some t => if t ≤ 1 then (some 0, true) else (some (t - 1), false)

/-- `n` consecutive timer ticks from a starting `timeLeft`. -/
def ticksFrom (t : Option Int) : Nat → Option Int
  | 0 => t
  | n + 1 => ticksFrom (timerTick t).1 n

theorem cons_set_perm {α : Type _} :
    ∀ (t : List α) (m : Nat) (h : m < t.length) (x : α),
      (t.get ⟨m, h⟩ :: t.set m x).Perm (x :: t) := by
  intro t
  induction t with
  | nil => intro m h x; simp at h
  | cons y s ih =>
    intro m h x
    cases m with
    | zero => simpa using List.Perm.swap x y s
    | succ k =>
      have hk : k < s.length := by simpa using h
      have h1 : (s.get ⟨k, hk⟩ :: y :: s.set k x).Perm (x :: y :: s) :=
        (List.Perm.swap y _ _).trans (((ih k hk x).cons y).trans (List.Perm.swap x y s))
      simpa using h1

theorem set_set_perm {α : Type _} :
    ∀ (l : List α) (i j : Nat) (hi : i < l.length) (hj : j < l.length),
      ((l.set i (l.get ⟨j, hj⟩)).set j (l.get ⟨i, hi⟩)).Perm l := by
  intro l
  induction l with
  | nil => intro i j hi; simp at hi
  | cons a t ih =>
    intro i j hi hj
    cases i with
    | zero =>
      cases j with
      | zero => simp
      | succ m =>
        have hm : m < t.length := by simpa using hj
        simpa using cons_set_perm t m hm a
    | succ k =>
      cases j with
      | zero =>
        have hk : k < t.length := by simpa using hi
        simpa using cons_set_perm t k hk a
      | succ m =>
        have hk : k < t.length := by simpa using hi
        have hm : m < t.length := by simpa using hj
        simpa using (ih k m hk hm).cons a

theorem listSwap_perm {α : Type _} (l : List α) (i j : Nat) :
    (listSwap l i j).Perm l := by
  unfold listSwap
  split
  · split
    · exact set_set_perm l i j ‹_› ‹_›
    · exact List.Perm.refl l
  · exact List.Perm.refl l

theorem fyLoop_perm {α : Type _} (R : Nat → Nat) :
    ∀ (i : Nat) (l : List α), (fyLoop R i l).Perm l := by
  intro i
  induction i with
  | zero => intro l; exact List.Perm.refl l
  | succ k ih =>
    intro l
    exact (ih _).trans (listSwap_perm l (k + 1) (R (k + 1) % (k + 2)))

/-- C4: for every input sequence and every stream of random draws,
`shuffleArray` returns a permutation of its input: the same multiset of
elements and the same length.  The input itself is left untouched — the
embedding permutes the copy `[...array]`, exactly as the source does. -/
theorem shuffleArray_perm {α : Type _} (l : List α) (R : Nat → Nat) :
    (shuffleArray l R).Perm l ∧
      (shuffleArray l R).length = l.length ∧
      (↑(shuffleArray l R) : Multiset α) = (↑l : Multiset α) := by
  have h : (shuffleArray l R).Perm l := fyLoop_perm R _ l
  exact ⟨h, h.length_eq, Quot.sound h⟩

theorem optionsLoop_some_spec (c : String) (m : QuizMode) :
    ∀ (draws : List VocabularyItem) (opts : List String), opts.Nodup →
      opts.length ≤ 4 → opts.count c = 1 →
      ∀ os, optionsLoop c m draws opts = some os →
        os.length = 4 ∧ os.Nodup ∧ os.count c = 1 := by
  intro draws
  induction draws with
  | nil =>
    intro opts hnd hlen hcnt os hs
    unfold optionsLoop at hs
    split at hs
    · cases hs
      exact ⟨le_antisymm hlen ‹_›, hnd, hcnt⟩
    · cases hs
  | cons d ds ih =>
    intro opts hnd hlen hcnt os hs
    unfold optionsLoop at hs
    split at hs
    · cases hs
      exact ⟨le_antisymm hlen ‹_›, hnd, hcnt⟩
    · rename_i hlt
      split at hs
      · rename_i hcond
        refine ih (opts ++ [extractAnswer d m]) ?_ ?_ ?_ os hs
        · simp [List.nodup_append, hnd, hcond.2]
        · simp only [List.length_append, List.length_singleton]
          omega
        · simp [List.count_append, hcnt, List.count_singleton',
            Ne.symm hcond.1]
      · exact ih opts hnd hlen hcnt os hs

theorem optionsLoop_isSome (c : String) (m : QuizMode) :
    ∀ (draws : List VocabularyItem) (opts : List String),
      4 ≤ ((opts ++ (draws.map fun d => extractAnswer d m).filter
        (fun x => x ≠ c)).toFinset.card) →
      (optionsLoop c m draws opts).isSome := by
  intro draws
  induction draws with
  | nil =>
    intro opts hcard
    have hlen : 4 ≤ opts.length := by
      have h1 : opts.toFinset.card ≤ opts.length := List.toFinset_card_le opts
      simp only [List.map_nil, List.filter_nil, List.append_nil] at hcard
      omega
    unfold optionsLoop
    simp [hlen]
  | cons d ds ih =>
    intro opts hcard
    unfold optionsLoop
    split
    · simp
    · rename_i hlt
      split
      · rename_i hcond
        refine ih (opts ++ [extractAnswer d m]) ?_
        have hfil : ((d :: ds).map fun x => extractAnswer x m).filter (fun x => x ≠ c)
            = extractAnswer d m ::
              ((ds.map fun x => extractAnswer x m).filter (fun x => x ≠ c)) := by
          simp [List.filter_cons, hcond.1]
        rw [hfil] at hcard
        simpa [List.append_assoc] using hcard
      · rename_i hcond
        refine ih opts ?_
        by_cases hc : extractAnswer d m = c
        · have hfil : ((d :: ds).map fun x => extractAnswer x m).filter (fun x => x ≠ c)
              = (ds.map fun x => extractAnswer x m).filter (fun x => x ≠ c) := by
            simp [List.filter_cons, hc]
          rwa [hfil] at hcard
        · have hmem : extractAnswer d m ∈ opts := by
            rcases not_and_or.mp hcond with h | h
            · exact absurd hc (by simpa using h)
            · simpa using h
          have hfil : ((d :: ds).map fun x => extractAnswer x m).filter (fun x => x ≠ c)
              = extractAnswer d m ::
                ((ds.map fun x => extractAnswer x m).filter (fun x => x ≠ c)) := by
            simp [List.filter_cons, hc]
          rw [hfil] at hcard
          have hset : (opts ++ extractAnswer d m ::
              ((ds.map fun x => extractAnswer x m).filter (fun x => x ≠ c))).toFinset
              = (opts ++ (ds.map fun x => extractAnswer x m).filter
                  (fun x => x ≠ c)).toFinset := by
            simp only [List.toFinset_append, List.toFinset_cons]
            rw [Finset.union_insert, Finset.insert_eq_self.mpr]
            exact Finset.mem_union_left _ (List.mem_toFinset.mpr hmem)
          rwa [hset] at hcard

theorem optionsLoop_none_of_small (c : String) (m : QuizMode) (S : Finset String) :
    ∀ (draws : List VocabularyItem) (opts : List String), opts.Nodup →
      (∀ x ∈ opts, x ∈ S) → (∀ d ∈ draws, extractAnswer d m ∈ S) → S.card < 4 →
      optionsLoop c m draws opts = none := by
  intro draws
  induction draws with
  | nil =>
    intro opts hnd hsub _ hS
    have hlen : opts.length < 4 := by
      have h1 : opts.toFinset.card = opts.length := List.toFinset_card_of_nodup hnd
      have h2 : opts.toFinset ⊆ S := fun x hx => hsub x (List.mem_toFinset.mp hx)
      have h3 := Finset.card_le_card h2
      omega
    unfold optionsLoop
    simp
    omega
  | cons d ds ih =>
    intro opts hnd hsub hdraws hS
    have hlen : opts.length < 4 := by
      have h1 : opts.toFinset.card = opts.length := List.toFinset_card_of_nodup hnd
      have h2 : opts.toFinset ⊆ S := fun x hx => hsub x (List.mem_toFinset.mp hx)
      have h3 := Finset.card_le_card h2
      omega
    unfold optionsLoop
    rw [if_neg (by omega)]
    split
    · rename_i hcond
      refine ih (opts ++ [extractAnswer d m]) ?_ ?_ ?_ hS
      · simp [List.nodup_append, hnd, hcond.2]
      · intro x hx
        rcases List.mem_append.mp hx with h | h
        · exact hsub x h
        · simp only [List.mem_singleton] at h
          subst h
          exact hdraws d (List.mem_cons_self d ds)
      · exact fun e he => hdraws e (List.mem_cons_of_mem d he)
    · exact ih opts hnd hsub (fun e he => hdraws e (List.mem_cons_of_mem d he)) hS

/-- C3: modelling the `Math.random()` draws of `generateOptions` as an
explicit index stream `idxs`: for every entry `E`, pool `P` whose extracted
field has at least 4 distinct values, and mode `M`, the loop terminates for
every draw stream that covers the pool (which uniform random draws do with
probability 1), returning exactly 4 pairwise-distinct strings of which
exactly one equals `extractAnswer E M`; and whenever the pool carries fewer
than 4 distinct values for the field, no finite draw stream from the pool
ever lets the loop exit — the documented non-termination precondition. -/
theorem generateOptions_valid (E : VocabularyItem) (P : List VocabularyItem)
    (M : QuizMode) (idxs : List Nat) (R : Nat → Nat)
    (h4 : 4 ≤ (P.map fun p => extractAnswer p M).toFinset.card)
    (hcov : ∀ p ∈ P, p ∈ idxs.map fun k => P.getD k default) :
    (∃ os, generateOptions E P M idxs R = some os ∧
      os.length = 4 ∧ os.Nodup ∧ os.count (extractAnswer E M) = 1) ∧
    (∀ (Q : List VocabularyItem) (idxsq : List Nat) (Rq : Nat → Nat),
      (Q.map fun p => extractAnswer p M).toFinset.card < 4 →
      extractAnswer E M ∈ Q.map (fun p => extractAnswer p M) →
      (∀ k ∈ idxsq, k < Q.length) →
      generateOptions E Q M idxsq Rq = none) := by
  constructor
  · have hsome : (optionsLoop (extractAnswer E M) M
        (idxs.map fun k => P.getD k default) [extractAnswer E M]).isSome := by
      apply optionsLoop_isSome
      refine le_trans h4 (Finset.card_le_card ?_)
      intro x hx
      rw [List.mem_toFinset] at hx ⊢
      rcases List.mem_map.mp hx with ⟨p, hp, hpx⟩
      have hd : p ∈ idxs.map fun k => P.getD k default := hcov p hp
      by_cases hxc : x = extractAnswer E M
      · subst hxc
        simp
      · refine List.mem_append.mpr (Or.inr ?_)
        rw [List.mem_filter]
        refine ⟨List.mem_map.mpr ⟨p, hd, hpx⟩, by simpa using hxc⟩
    rcases Option.isSome_iff_exists.mp hsome with ⟨os, hos⟩
    have hspec := optionsLoop_some_spec (extractAnswer E M) M
      (idxs.map fun k => P.getD k default) [extractAnswer E M]
      (by simp) (by simp) (by simp) os hos
    refine ⟨shuffleArray os R, ?_, ?_, ?_, ?_⟩
    · unfold generateOptions
      rw [hos]
    · rw [(shuffleArray_perm os R).1.length_eq, hspec.1]
    · exact ((shuffleArray_perm os R).1.symm).nodup hspec.2.1
    · rw [(shuffleArray_perm os R).1.count_eq, hspec.2.2]
  · intro Q idxsq Rq hQ4 hcQ hrange
    have hnone : optionsLoop (extractAnswer E M) M
        (idxsq.map fun k => Q.getD k default) [extractAnswer E M] = none := by
      apply optionsLoop_none_of_small (extractAnswer E M) M
        ((Q.map fun p => extractAnswer p M).toFinset)
      · simp
      · intro x hx
        simp only [List.mem_singleton] at hx
        subst hx
        exact List.mem_toFinset.mpr hcQ
      · intro d hd
        rcases List.mem_map.mp hd with ⟨k, hk, hkd⟩
        have hklt : k < Q.length := hrange k hk
        have hdq : d ∈ Q := by
          rw [← hkd, List.getD_eq_getElem?_getD, List.getElem?_eq_getElem hklt,
            Option.getD_some]
          exact List.getElem_mem hklt
        exact List.mem_toFinset.mpr (List.mem_map.mpr ⟨d, hdq, rfl⟩)
      · exact hQ4
    unfold generateOptions
    rw [hnone]

/-- Witness for `generateOptions_valid`: a 4-entry pool with 4 distinct
English glosses, drawn by the index stream `[0, 1, 2, 3]`. -/
theorem generateOptions_valid_witness :
    (4 ≤ (([⟨"一", "one", "yi"⟩, ⟨"二", "two", "er"⟩, ⟨"三", "three", "san"⟩,
        ⟨"四", "four", "si"⟩] : List VocabularyItem).map
        (fun p => extractAnswer p QuizMode.chineseToEnglish)).toFinset.card) ∧
    (∃ os, generateOptions ⟨"一", "one", "yi"⟩
        [⟨"一", "one", "yi"⟩, ⟨"二", "two", "er"⟩, ⟨"三", "three", "san"⟩,
          ⟨"四", "four", "si"⟩]
        QuizMode.chineseToEnglish [0, 1, 2, 3] (fun _ => 0) = some os ∧
      os.length = 4 ∧ os.Nodup ∧
      os.count (extractAnswer ⟨"一", "one", "yi"⟩ QuizMode.chineseToEnglish) = 1) :=
  ⟨by decide,
    (generateOptions_valid ⟨"一", "one", "yi"⟩
      [⟨"一", "one", "yi"⟩, ⟨"二", "two", "er"⟩, ⟨"三", "three", "san"⟩,
        ⟨"四", "four", "si"⟩]
      QuizMode.chineseToEnglish [0, 1, 2, 3] (fun _ => 0)
      (by decide) (by decide)).1⟩

/-- C5: scoring and streak bookkeeping of a single submit/skip on an
unanswered question, and the idempotence guard: a second submit on an
already-answered question is a no-op on the whole state. -/
theorem handleAnswer_scoring (s : Session) (a : String) (m : QuizMode)
    (newOpts : List String) (hrun : s.finished = false) :
    (s.isAnswered = false →
      ((a = getCorrectAnswer (s.questions.getD s.currentIndex default) m →
        (step s (.answer a m)).score = s.score + 1 ∧
        (step s (.answer a m)).streak = s.streak + 1) ∧
      (a ≠ getCorrectAnswer (s.questions.getD s.currentIndex default) m →
        (step s (.answer a m)).streak = 0 ∧
        (step s (.answer a m)).score = s.score) ∧
      ((step s (.skip newOpts)).streak = 0 ∧
        (step s (.skip newOpts)).score = s.score))) ∧
    (s.isAnswered = true → step s (.answer a m) = s) := by
  constructor
  · intro hna
    refine ⟨?_, ?_, ?_⟩
    · intro hc
      simp [step, hrun, handleAnswer, hna, hc]
    · intro hc
      rw [List.getD_eq_getElem?_getD] at hc
      simp [step, hrun, handleAnswer, hna, hc]
    · constructor
      · simp only [step, hrun, if_false, Bool.false_eq_true, hna, skipQuestion,
          nextQuestion, finishSession]
        split <;> rfl
      · simp only [step, hrun, if_false, Bool.false_eq_true, hna, skipQuestion,
          nextQuestion, finishSession]
        split <;> rfl
  · intro hans
    by_cases hf : s.finished = true
    · simp [step, hf]
    · simp [step, hf, handleAnswer, hans]

/-- Witness for `handleAnswer_scoring`: a freshly started two-question
session, answered correctly, answered incorrectly, and skipped. -/
theorem handleAnswer_scoring_witness :
    ((startQuiz initialSession [⟨"一", "one", "yi"⟩, ⟨"二", "two", "er"⟩]
        ["one", "two", "three", "four"]).finished = false) ∧
    ((step (startQuiz initialSession [⟨"一", "one", "yi"⟩, ⟨"二", "two", "er"⟩]
        ["one", "two", "three", "four"])
        (.answer "one" QuizMode.chineseToEnglish)).score =
      (startQuiz initialSession [⟨"一", "one", "yi"⟩, ⟨"二", "two", "er"⟩]
        ["one", "two", "three", "four"]).score + 1) ∧
    ((step (startQuiz initialSession [⟨"一", "one", "yi"⟩, ⟨"二", "two", "er"⟩]
        ["one", "two", "three", "four"])
        (.answer "two" QuizMode.chineseToEnglish)).streak = 0) ∧
    ((step (startQuiz initialSession [⟨"一", "one", "yi"⟩, ⟨"二", "two", "er"⟩]
        ["one", "two", "three", "four"])
        (.skip ["x", "y", "z", "w"])).streak = 0) := by
  have h := handleAnswer_scoring
    (startQuiz initialSession [⟨"一", "one", "yi"⟩, ⟨"二", "two", "er"⟩]
      ["one", "two", "three", "four"])
    "one" QuizMode.chineseToEnglish ["x", "y", "z", "w"] (by decide)
  have h2 := handleAnswer_scoring
    (startQuiz initialSession [⟨"一", "one", "yi"⟩, ⟨"二", "two", "er"⟩]
      ["one", "two", "three", "four"])
    "two" QuizMode.chineseToEnglish ["x", "y", "z", "w"] (by decide)
  refine ⟨by decide, ((h.1 (by decide)).1 (by decide)).1, ?_, ((h.1 (by decide)).2.2).1⟩
  exact ((h2.1 (by decide)).2.1 (by decide)).1

theorem step_preserves_inv (s : Session) (e : Event) (h : SessionInv s) :
    SessionInv (step s e) := by
  obtain ⟨h1, h2, h3, h4⟩ := h
  by_cases hf : s.finished = true
  · simpa [step, hf] using ⟨h1, h2, h3, h4⟩
  · have hf' : s.finished = false := by simpa using hf
    have h3' := h3 hf'
    cases e with
    | answer a m =>
      by_cases ha : s.isAnswered = true
      · simpa [step, hf', handleAnswer, ha] using ⟨h1, h2, h3, h4⟩
      · have ha' : s.isAnswered = false := by simpa using ha
        rw [ha'] at h3'
        simp only [Bool.false_eq_true, if_false, Nat.add_zero] at h3'
        by_cases hb : a = getCorrectAnswer (s.questions[s.currentIndex]?.getD default) m
        · refine ⟨?_, ?_, ?_, ?_⟩ <;>
            simp [step, hf', handleAnswer, ha', hb, List.filter_append,
              List.filter_cons] <;> omega
        · refine ⟨?_, ?_, ?_, ?_⟩ <;>
            simp [step, hf', handleAnswer, ha', hb, List.filter_append,
              List.filter_cons] <;> omega
    | advance newOpts =>
      by_cases ha : s.isAnswered = true
      · rw [ha] at h3'
        simp only [if_true] at h3'
        by_cases hlast : s.currentIndex < s.questions.length - 1
        · refine ⟨?_, ?_, ?_, ?_⟩ <;>
            simp [step, hf', ha, nextQuestion, hlast] <;> omega
        · refine ⟨?_, ?_, ?_, ?_⟩ <;>
            simp [step, hf', ha, nextQuestion, hlast, finishSession] <;> omega
      · have ha' : s.isAnswered = false := by simpa using ha
        simpa [step, hf', ha'] using ⟨h1, h2, h3, h4⟩
    | skip newOpts =>
      by_cases ha : s.isAnswered = true
      · simpa [step, hf', ha] using ⟨h1, h2, h3, h4⟩
      · have ha' : s.isAnswered = false := by simpa using ha
        rw [ha'] at h3'
        simp only [Bool.false_eq_true, if_false, Nat.add_zero] at h3'
        by_cases hlast : s.currentIndex < s.questions.length - 1
        · refine ⟨?_, ?_, ?_, ?_⟩ <;>
            simp [step, hf', ha', skipQuestion, nextQuestion, hlast,
              List.filter_append, List.filter_cons] <;> omega
        · refine ⟨?_, ?_, ?_, ?_⟩ <;>
            simp [step, hf', ha', skipQuestion, nextQuestion, hlast,
              finishSession, List.filter_append, List.filter_cons] <;> omega
    | timeUp =>
      by_cases ha : s.isAnswered = true
      · rw [ha] at h3'
        simp only [if_true] at h3'
        refine ⟨?_, ?_, ?_, ?_⟩ <;>
          simp [step, hf', finishSession, ha] <;> omega
      · have ha' : s.isAnswered = false := by simpa using ha
        rw [ha'] at h3'
        simp only [Bool.false_eq_true, if_false, Nat.add_zero] at h3'
        refine ⟨?_, ?_, ?_, ?_⟩ <;>
          simp [step, hf', finishSession, ha'] <;> omega

theorem runTrace_inv : ∀ (es : List Event) (s : Session),
    SessionInv s → SessionInv (runTrace s es) := by
  intro es
  induction es with
  | nil => intro s h; simpa [runTrace] using h
  | cons e es ih =>
    intro s h
    have h1 : runTrace s (e :: es) = runTrace (step s e) es := by
      simp [runTrace]
    rw [h1]
    exact ih (step s e) (step_preserves_inv s e h)

/-- C6 counterexample: after starting a two-question session and answering
the first question (an event sequence of `submitAnswer` alone), a question
has been answered — `answers` is nonempty — yet
`answers.length == currentIndex` fails (`answers.length = 1`,
`currentIndex = 0`): the recorded answer is appended before the index
advances, so the claimed equality does not hold in every reachable state. -/
theorem sessionInv_claim_counterexample :
    (runTrace (startQuiz initialSession
        [⟨"一", "one", "yi"⟩, ⟨"二", "two", "er"⟩]
        ["one", "two", "three", "four"])
      [.answer "one" QuizMode.chineseToEnglish]).answers ≠ [] ∧
    ¬((runTrace (startQuiz initialSession
        [⟨"一", "one", "yi"⟩, ⟨"二", "two", "er"⟩]
        ["one", "two", "three", "four"])
      [.answer "one" QuizMode.chineseToEnglish]).answers.length =
      (runTrace (startQuiz initialSession
        [⟨"一", "one", "yi"⟩, ⟨"二", "two", "er"⟩]
        ["one", "two", "three", "four"])
      [.answer "one" QuizMode.chineseToEnglish]).currentIndex) := by
  decide

/-- C6 (amended): in every state reachable by any UI-permitted sequence of
submit, skip, advance and timeout events from `startQuiz` applied to ANY
prior application state — `startQuiz` does not reset `isAnswered`, so the
prior state matters — `0 ≤ currentIndex ≤ questions.length` and
`score ≤ answers.filter(correct).length` hold, and the answer count
satisfies `answers.length = currentIndex + (isAnswered ? 1 : 0)` (the
current question's record is counted before the index advances) or, in a
session started with a leftover `isAnswered = true` flag,
`answers.length + 1 = currentIndex + (isAnswered ? 1 : 0)`; a finished
session may additionally end with `answers.length = currentIndex + 1`
(skipping the last question appends a record without advancing). -/
theorem sessionInv_reachable (s0 : Session) (qs : List VocabularyItem)
    (opts : List String) (es : List Event) :
    SessionInv (runTrace (startQuiz s0 qs opts) es) := by
  refine runTrace_inv es _ ?_
  by_cases h : s0.isAnswered = true
  · simp [SessionInv, startQuiz, h]
  · have h' : s0.isAnswered = false := by simpa using h
    simp [SessionInv, startQuiz, h']

theorem step_bestStreak_max (s : Session) (e : Event)
    (h : s.streak ≤ s.bestStreak) :
    (step s e).bestStreak = max s.bestStreak (step s e).streak ∧
      (step s e).streak ≤ (step s e).bestStreak := by
  by_cases hf : s.finished = true
  · simp [step, hf]
    omega
  · have hf' : s.finished = false := by simpa using hf
    cases e with
    | answer a m =>
      by_cases ha : s.isAnswered = true
      · simp [step, hf', handleAnswer, ha]
        omega
      · have ha' : s.isAnswered = false := by simpa using ha
        by_cases hb : a = getCorrectAnswer (s.questions[s.currentIndex]?.getD default) m
        · rcases Nat.lt_or_ge s.bestStreak (s.streak + 1) with hlt | hge
          · simp [step, hf', handleAnswer, ha', hb, hlt,
              Nat.max_eq_right (Nat.le_of_lt hlt)]
          · simp [step, hf', handleAnswer, ha', hb, Nat.not_lt.mpr hge,
              Nat.max_eq_left hge, hge]
        · simp [step, hf', handleAnswer, ha', hb]
    | advance newOpts =>
      by_cases ha : s.isAnswered = true
      · by_cases hlast : s.currentIndex < s.questions.length - 1
        · simp [step, hf', ha, nextQuestion, hlast]
          omega
        · simp [step, hf', ha, nextQuestion, hlast, finishSession]
          omega
      · have ha' : s.isAnswered = false := by simpa using ha
        simp [step, hf', ha']
        omega
    | skip newOpts =>
      by_cases ha : s.isAnswered = true
      · simp [step, hf', ha]
        omega
      · have ha' : s.isAnswered = false := by simpa using ha
        by_cases hlast : s.currentIndex < s.questions.length - 1
        · simp [step, hf', ha', skipQuestion, nextQuestion, hlast]
        · simp [step, hf', ha', skipQuestion, nextQuestion, hlast, finishSession]
    | timeUp =>
      simp [step, hf', finishSession]
      omega

theorem runTrace_bestStreak : ∀ (es : List Event) (s : Session),
    s.streak ≤ s.bestStreak →
    (runTrace s es).bestStreak = (streaksAfter s es).foldl max s.bestStreak ∧
      (runTrace s es).streak ≤ (runTrace s es).bestStreak := by
  intro es
  induction es with
  | nil => intro s h; exact ⟨rfl, h⟩
  | cons e es ih =>
    intro s h
    have hrw : runTrace s (e :: es) = runTrace (step s e) es := by
      simp [runTrace]
    have hstep := step_bestStreak_max s e h
    have hrec := ih (step s e) hstep.2
    rw [hrw, streaksAfter]
    refine ⟨?_, hrec.2⟩
    rw [List.foldl_cons, ← hstep.1]
    exact hrec.1

/-- C9: after any sequence of events in a session started with
`streak = bestStreak = 0`, `bestStreak` equals the running maximum of all
`streak` values observed so far (the start value 0 included), and
`bestStreak ≥ streak` always holds. -/
theorem bestStreak_running_max (qs : List VocabularyItem) (opts : List String)
    (es : List Event) :
    (runTrace (startQuiz initialSession qs opts) es).bestStreak =
      (streaksAfter (startQuiz initialSession qs opts) es).foldl max 0 ∧
    (runTrace (startQuiz initialSession qs opts) es).streak ≤
      (runTrace (startQuiz initialSession qs opts) es).bestStreak := by
  have h := runTrace_bestStreak es (startQuiz initialSession qs opts)
    (by simp [startQuiz, initialSession])
  simpa [startQuiz, initialSession] using h

/-- C7: for every finished session's answer list, the built result
satisfies `correct + incorrect = answers.length` and `skipped` equals the
number of records whose `userAnswer` is the `'Skipped'` sentinel. -/
theorem finish_result_consistent (level : HSKLevel) (t : Nat)
    (answers : List AnswerRec) :
    (buildResult level t answers).correct + (buildResult level t answers).incorrect =
      (buildResult level t answers).answers.length ∧
    (buildResult level t answers).skipped =
      ((buildResult level t answers).answers.filter
        (fun a => a.userAnswer == "Skipped")).length := by
  refine ⟨?_, rfl⟩
  have h := List.length_filter_le (·.correct) answers
  simp only [buildResult]
  omega

/-- C1: `finishQuiz` invoked with zero recorded answers (e.g. the timer
fires before any answer) completes without any exception and builds a
result with `answers.length = 0` — but the percentage it derives,
`Math.round((0 / 0) * 100)`, is `NaN` (`none` in this model), not `0`:
the division by `answers.length` is unguarded, and the result screen
renders `NaN%`. -/
theorem finish_empty_answers_nan :
    (buildResult HSKLevel.one 0 []).answers.length = 0 ∧
    jsRoundPct (buildResult HSKLevel.one 0 []).correct
      (buildResult HSKLevel.one 0 []).answers.length = none ∧
    jsRoundPct (buildResult HSKLevel.one 0 []).correct
      (buildResult HSKLevel.one 0 []).answers.length ≠ some 0 := by
  refine ⟨rfl, rfl, by simp [jsRoundPct, buildResult]⟩

theorem updateStats_le (st : Stats) (l : HSKLevel) (c n : Nat) :
    st.totalQuizzes ≤ (updateStats st l c n).totalQuizzes ∧
    st.totalCorrect ≤ (updateStats st l c n).totalCorrect ∧
    st.totalQuestions ≤ (updateStats st l c n).totalQuestions ∧
    st.bestScore ≤ (updateStats st l c n).bestScore := by
  unfold updateStats
  cases h : jsRoundPct c n with
  | none => simp
  | some p =>
    simp only
    split
    · simp
      omega
    · simp

theorem recordAll_le (rs : List (HSKLevel × Nat × Nat)) : ∀ (st : Stats),
    st.totalQuizzes ≤ (recordAll st rs).totalQuizzes ∧
    st.totalCorrect ≤ (recordAll st rs).totalCorrect ∧
    st.totalQuestions ≤ (recordAll st rs).totalQuestions ∧
    st.bestScore ≤ (recordAll st rs).bestScore := by
  induction rs with
  | nil => intro st; exact ⟨le_rfl, le_rfl, le_rfl, le_rfl⟩
  | cons r rs ih =>
    intro st
    have h1 := updateStats_le st r.1 r.2.1 r.2.2
    have h2 := ih (updateStats st r.1 r.2.1 r.2.2)
    have hrw : recordAll st (r :: rs) = recordAll (updateStats st r.1 r.2.1 r.2.2) rs := by
      simp [recordAll]
    rw [hrw]
    exact ⟨le_trans h1.1 h2.1, le_trans h1.2.1 h2.2.1,
      le_trans h1.2.2.1 h2.2.2.1, le_trans h1.2.2.2 h2.2.2.2⟩

/-- C8 (amended): each `record` step adds exactly 1 to `totalQuizzes`,
adds the session's correct count and answer count to `totalCorrect` and
`totalQuestions`, updates the matching per-level counters the same way,
and raises `bestScore` to the program's floating-point percentage
`Math.round((correct / answered) * 100)` — which can differ from the exact
rounding of `100 * correct / answered` (e.g. 23 of 40 gives 57, not 58) —
exactly when that computed percentage exceeds it (never lowering it);
across any sequence of `record` steps all four aggregates are
non-decreasing. -/
theorem updateStats_monotone (st : Stats) (level : HSKLevel) (c n : Nat)
    (rs : List (HSKLevel × Nat × Nat)) :
    (updateStats st level c n).totalQuizzes = st.totalQuizzes + 1 ∧
    (updateStats st level c n).totalCorrect = st.totalCorrect + c ∧
    (updateStats st level c n).totalQuestions = st.totalQuestions + n ∧
    (updateStats st level c n).levelStats level =
      ⟨(st.levelStats level).quizzes + 1, (st.levelStats level).correct + c,
        (st.levelStats level).total + n⟩ ∧
    (updateStats st level c n).bestScore =
      (match jsRoundPct c n with
        | some p => if p > st.bestScore then p else st.bestScore
        | none => st.bestScore) ∧
    st.bestScore ≤ (updateStats st level c n).bestScore ∧
    st.totalQuizzes ≤ (recordAll st rs).totalQuizzes ∧
    st.totalCorrect ≤ (recordAll st rs).totalCorrect ∧
    st.totalQuestions ≤ (recordAll st rs).totalQuestions ∧
    st.bestScore ≤ (recordAll st rs).bestScore := by
  have hmono := recordAll_le rs st
  have hle := updateStats_le st level c n
  refine ⟨?_, ?_, ?_, ?_, ?_, hle.2.2.2, hmono.1, hmono.2.1, hmono.2.2.1,
    hmono.2.2.2⟩ <;>
    · unfold updateStats
      cases h : jsRoundPct c n with
      | none => simp
      | some p =>
        simp only
        split <;> simp

/-- C8 counterexample: at 23 correct of 40 answered (reachable, e.g. a
timed 50-question quiz that times out after 40 answers), the claim's
`round(100 * correct / answered)` is `round(57.5) = 58`, but the program
computes the binary64 value `(23/40)*100 = 57.49999999999999…` and
`Math.round` yields 57 — so with a current best of 57 the claim predicts
an update to 58 while the code leaves `bestScore` at 57. -/
theorem updateStats_round_counterexample :
    specRoundPct 23 40 = 58 ∧
    jsRoundPct 23 40 = some 57 ∧
    (updateStats
      { totalQuizzes := 0, totalCorrect := 0, totalQuestions := 0,
        bestScore := 57, levelStats := fun _ => ⟨0, 0, 0⟩ }
      HSKLevel.one 23 40).bestScore = 57 := by
  refine ⟨by decide, by decide, by decide⟩

/-- C2: loading persisted statistics is NOT total on malformed content:
`JSON.parse` of an unparseable stored value throws and the effect
propagates the exception (there is no try/catch), instead of degrading to
the zeroed defaults the claim describes.  On an absent key the in-memory
defaults are indeed kept. -/
theorem loadStats_malformed_error :
    loadStats (some ParsedStats.malformed) initialStats = Except.error () ∧
    loadStats none initialStats = Except.ok initialStats :=
  ⟨rfl, rfl⟩

theorem ticksFrom_nonneg : ∀ (n : Nat) (t : Int), 0 ≤ t →
    ∃ v : Int, ticksFrom (some t) n = some v ∧ 0 ≤ v := by
  intro n
  induction n with
  | zero => intro t ht; exact ⟨t, rfl, ht⟩
  | succ k ih =>
    intro t ht
    by_cases h1 : t ≤ 1
    · have hrw : ticksFrom (some t) (k + 1) = ticksFrom (some 0) k := by
        simp [ticksFrom, timerTick, h1]
      rw [hrw]
      exact ih 0 le_rfl
    · have hrw : ticksFrom (some t) (k + 1) = ticksFrom (some (t - 1)) k := by
        simp [ticksFrom, timerTick, h1]
      rw [hrw]
      exact ih (t - 1) (by omega)

/-- C10: each timer tick maps a `timeLeft` of at most 1 to exactly 0 while
invoking `finishQuiz`, and otherwise decrements by 1; hence from any
non-negative time limit, `timeLeft` is non-negative after every tick
sequence. -/
theorem timer_tick_nonneg :
    (∀ t : Int, t ≤ 1 → timerTick (some t) = (some 0, true)) ∧
    (∀ t : Int, 1 < t → timerTick (some t) = (some (t - 1), false)) ∧
    (∀ t0 : Int, 0 ≤ t0 → ∀ n : Nat,
      ∃ v : Int, ticksFrom (some t0) n = some v ∧ 0 ≤ v) := by
  refine ⟨?_, ?_, ?_⟩
  · intro t ht
    simp [timerTick, ht]
  · intro t ht
    simp [timerTick]
    omega
  · intro t0 h0 n
    exact ticksFrom_nonneg n t0 h0

/-- Witness for `timer_tick_nonneg` at the 5-minute limit (300 seconds). -/
theorem timer_tick_nonneg_witness :
    timerTick (some 1) = (some 0, true) ∧
    timerTick (some 300) = (some (300 - 1), false) ∧
    (∃ v : Int, ticksFrom (some 300) 5 = some v ∧ 0 ≤ v) :=
  ⟨timer_tick_nonneg.1 1 (by decide),
    timer_tick_nonneg.2.1 300 (by decide),
    timer_tick_nonneg.2.2 300 (by decide) 5⟩

end HSKQuiz
